import Mathlib

/-!
Shallow embedding of `src/app.py` (stock-analysis dashboard): the symbol
normalizer `smart_ticker_formatter`, the data loader `load_data_and_name`
with its deterministic synthetic fallback, the indicator calculator
`add_indicators`, and the presentation-layer change/currency computations.

Python strings are modelled as lists of Unicode code points (`List ℕ`, as
Python strings are sequences of code points); `pyS` converts a Lean string
literal.  `str.strip`, `str.upper`, `str.isdigit`, `str.startswith` and the
`in` substring test are modelled below.  Prices are modelled as `ℚ` (the
code combines them with exact `+`, cumulative sum and division by window
constants), dates as `ℤ` day numbers (one entry per calendar day, as
`pd.date_range(start, end)` produces), volumes as `ℤ`.
-/

/-- Python strings: a sequence of Unicode code points. -/
abbrev PyStr := List ℕ

/-- Code points of a Lean string literal. -/
def pyS (s : String) : PyStr := s.toList.map Char.toNat

/-- Code point of a single character. -/
def pyC (c : Char) : ℕ := c.toNat

/-- The whitespace characters removed by Python `str.strip()` (ASCII
whitespace; the repository only ever strips ASCII input). -/
def pyIsSpace (c : ℕ) : Bool :=
  decide (c = 32 ∨ c = 9 ∨ c = 10 ∨ c = 13 ∨ c = 11 ∨ c = 12)

/-- Python `str.strip()`: drop leading and trailing whitespace. -/
def pyStrip (s : PyStr) : PyStr :=
  (s.dropWhile pyIsSpace).rdropWhile pyIsSpace

/-- Character-wise model of Python `str.upper()`: ASCII lowercase letters map
to uppercase, every other character is unchanged (no character appearing in
the claims has a multi-character or non-ASCII uppercase mapping). -/
def pyUpperChar (c : ℕ) : ℕ :=
  if 97 ≤ c ∧ c ≤ 122 then c - 32 else c

/-- Python `str.upper()`. -/
def pyUpper (s : PyStr) : PyStr := s.map pyUpperChar

/-- Model of the character class accepted by Python `str.isdigit()`:
Python accepts every Unicode character of numeric type Digit or Decimal,
not only ASCII `0`-`9` (code points 48-57).  The model covers the ASCII
digits and, as representatives of the non-ASCII digits Python also accepts,
the fullwidth digits U+FF10–U+FF19 (`'２'.isdigit()` is `True` in Python). -/
def pyIsDigitChar (c : ℕ) : Bool :=
  decide ((48 ≤ c ∧ c ≤ 57) ∨ (0xFF10 ≤ c ∧ c ≤ 0xFF19))

/-- Python `str.isdigit()`: nonempty and every character is a digit. -/
def pyIsdigit (s : PyStr) : Bool :=
  !s.isEmpty && s.all pyIsDigitChar

/-- Python `s.startswith(p)` for a single prefix. -/
def pyStartswith (s p : PyStr) : Bool := p.isPrefixOf s

/-- Python `s.startswith((p1, p2, ...))`: true if any listed prefix matches. -/
def pyStartswithAny (s : PyStr) (ps : List PyStr) : Bool :=
  ps.any (pyStartswith s)

/-- Python `sub in s`: substring containment. -/
def pyContains (s sub : PyStr) : Bool :=
  (List.range (s.length + 1)).any (fun i => sub.isPrefixOf (s.drop i))

/-- Python `s.endswith(p)`. -/
def pyEndswith (s p : PyStr) : Bool := p.isSuffixOf s

/-- `smart_ticker_formatter` (src/app.py lines 29-39): trim and uppercase;
a six-character all-digit string is given an exchange suffix chosen by
`startswith` on the listed leading characters; everything else is returned
as the trimmed, uppercased string. -/
def smart_ticker_formatter (symbol : PyStr) : PyStr :=
  let s := pyUpper (pyStrip symbol)
  if pyIsdigit s ∧ s.length = 6 then
    if pyStartswithAny s [[pyC '6'], [pyC '9']] then s ++ pyS ".SS"
    else if pyStartswithAny s [[pyC '0'], [pyC '3'], [pyC '2']] then s ++ pyS ".SZ"
    else if pyStartswithAny s [[pyC '4'], [pyC '8']] then s ++ pyS ".BJ"
    else s
  else s

/-- One daily OHLCV record of the loader's result table.  Field names follow
the pandas columns of `app.py`; the date is a day number. -/
structure Bar where
  Date : ℤ
  Open : ℚ
  High : ℚ
  Low : ℚ
  Close : ℚ
  Volume : ℤ
deriving Repr, DecidableEq

/-- The `numpy.random` global generator state: the seed last installed and
how many values have been drawn since.  The concrete value streams are
parameters of the model (numpy's Mersenne-Twister outputs are not
re-derived); every theorem below holds for every stream. -/
structure NpRandomState where
  seed : ℕ
  pos : ℕ
deriving Repr, DecidableEq

/-- `np.random.seed(n)`: installs seed `n`, discarding the previous state. -/
def npSeed (n : ℕ) (_ : NpRandomState) : NpRandomState := ⟨n, 0⟩

/-- `np.random.randn(n)`: draw `n` values of the Gaussian stream `gauss`
determined by the current seed, advancing the state. -/
def npRandn (gauss : ℕ → ℕ → ℚ) (n : ℕ) (st : NpRandomState) :
    List ℚ × NpRandomState :=
  ((List.range n).map (fun i => gauss st.seed (st.pos + i)), ⟨st.seed, st.pos + n⟩)

/-- `np.random.randint(lo, hi, size=n)`: draw `n` integers uniform in
`[lo, hi)` from the raw stream `uraw` determined by the current seed. -/
def npRandint (uraw : ℕ → ℕ → ℕ) (lo hi : ℤ) (n : ℕ) (st : NpRandomState) :
    List ℤ × NpRandomState :=
  ((List.range n).map (fun i => lo + (uraw st.seed (st.pos + i) : ℤ) % (hi - lo)),
   ⟨st.seed, st.pos + n⟩)

/-- `pd.date_range(start, end)`: one entry per calendar day from `start` to
`end_` inclusive; empty when `end_ < start`. -/
def date_range (start end_ : ℤ) : List ℤ :=
  (List.range (end_ - start + 1).toNat).map (fun (i : ℕ) => start + (i : ℤ))

/-- `np.cumsum`: the list of partial sums (same length as the input). -/
def npCumsum (xs : List ℚ) : List ℚ :=
  (List.range xs.length).map (fun i => ((xs.take (i + 1)).sum))

/-- The fallback branch of `load_data_and_name` (src/app.py lines 79-88):
seed the global generator with the constant 42, draw one Gaussian step per
day of the range, set prices to `100 + cumsum(steps)`, and build the table
with `Open = Close = price`, `High = price + 1`, `Low = price - 1` and
volumes drawn from `randint(1000000, 5000000)`. -/
def simulate_df (gauss : ℕ → ℕ → ℚ) (uraw : ℕ → ℕ → ℕ)
    (start end_ : ℤ) (st0 : NpRandomState) : List Bar :=
  let dr := date_range start end_
  let st1 := npSeed 42 st0
  let rd := npRandn gauss dr.length st1
  let prices := (npCumsum rd.1).map (fun x => 100 + x)
  let vols := (npRandint uraw 1000000 5000000 dr.length rd.2).1
  (List.range dr.length).map (fun i =>
    ⟨dr.getD i 0, prices.getD i 0, prices.getD i 0 + 1, prices.getD i 0 - 1,
     prices.getD i 0, vols.getD i 0⟩)

/-- Outcome of the `yf.download` call: an exception, or a table of rows
(possibly empty).  The surrounding `try` of `load_data_and_name` treats a
raised exception and an empty table alike. -/
inductive FetchOutcome where
  | err : FetchOutcome
  | ok : List Bar → FetchOutcome
deriving Repr, DecidableEq

/-- The static ticker-to-name table `KNOWN_CHINESE_NAMES` (src/app.py
lines 11-26). -/
def KNOWN_CHINESE_NAMES : List (PyStr × PyStr) :=
  [(pyS "600519.SS", pyS "贵州茅台"),
   (pyS "300750.SZ", pyS "宁德时代"),
   (pyS "000858.SZ", pyS "五粮液"),
   (pyS "600036.SS", pyS "招商银行"),
   (pyS "601318.SS", pyS "中国平安"),
   (pyS "002594.SZ", pyS "比亚迪"),
   (pyS "000001.SZ", pyS "平安银行"),
   (pyS "0700.HK", pyS "腾讯控股 (港股)"),
   (pyS "3690.HK", pyS "美团 (港股)"),
   (pyS "9988.HK", pyS "阿里巴巴 (港股)"),
   (pyS "NVDA", pyS "NVIDIA (英伟达)"),
   (pyS "AAPL", pyS "Apple (苹果)"),
   (pyS "TSLA", pyS "Tesla (特斯拉)"),
   (pyS "MSFT", pyS "Microsoft (微软)")]

/-- The source label of the provider path. -/
def yahooLabel : PyStr := pyS "Yahoo Finance"

/-- The source label of the fallback path (`模拟演示模式 (数据获取失败)`). -/
def simulatedLabel : PyStr := pyS "模拟演示模式 (数据获取失败)"

/-- `load_data_and_name` (src/app.py lines 43-90).  `fetch` is the outcome
of the `yf.download` call and `metaName` that of the best-effort
`yf.Ticker(...).info` name lookup (`none` when it raised or had no name
fields).  The MultiIndex flattening and `reset_index` of the success path
are identity on this model (rows are already flat with an explicit date).
Returns `(df, (data_source, formatted_ticker, stock_name))`. -/
def load_data_and_name (gauss : ℕ → ℕ → ℚ) (uraw : ℕ → ℕ → ℕ)
    (fetch : FetchOutcome) (metaName : Option PyStr) (ticker : PyStr)
    (start end_ : ℤ) (st0 : NpRandomState) :
    List Bar × PyStr × PyStr × PyStr :=
  let formatted_ticker := smart_ticker_formatter ticker
  let stock_name :=
    match (KNOWN_CHINESE_NAMES.find? (fun p => p.1 == formatted_ticker)) with
    | some p => p.2
    | none => metaName.getD formatted_ticker
  match fetch with
  | FetchOutcome.ok df =>
      if df = [] then
        (simulate_df gauss uraw start end_ st0, simulatedLabel, formatted_ticker,
         pyS "模拟公司 (" ++ formatted_ticker ++ pyS ")")
      else (df, yahooLabel, formatted_ticker, stock_name)
  | FetchOutcome.err =>
      (simulate_df gauss uraw start end_ st0, simulatedLabel, formatted_ticker,
       pyS "模拟公司 (" ++ formatted_ticker ++ pyS ")")

/-- A cell of the pandas `Close` column before coercion: either a value
`pd.to_numeric` converts (carrying the converted number) or one it cannot
(which `errors="coerce"` turns into `NaN`). -/
inductive PyCell where
  | num : ℚ → PyCell
  | nonNum : PyCell
deriving Repr, DecidableEq

/-- `pd.to_numeric(cell, errors="coerce")`: `none` models `NaN`. -/
def to_numeric : PyCell → Option ℚ
  | PyCell.num q => some q
  | PyCell.nonNum => none

/-- The dataframe handed to `add_indicators`: one list per column. -/
structure Frame where
  Date : List ℤ
  Open : List ℚ
  High : List ℚ
  Low : List ℚ
  Close : List PyCell
  Volume : List ℤ
deriving Repr, DecidableEq

/-- The dataframe after `add_indicators`: the coerced `Close` column and the
two moving-average columns; `none` models `NaN`. -/
structure FrameInd where
  Date : List ℤ
  Open : List ℚ
  High : List ℚ
  Low : List ℚ
  Close : List (Option ℚ)
  Volume : List ℤ
  SMA_20 : List (Option ℚ)
  SMA_50 : List (Option ℚ)
deriving Repr, DecidableEq

/-- `Series.rolling(window=w).mean()`: entry `i` is the mean of entries
`i-w+1 .. i` when the window is full and contains no `NaN`, else `NaN`
(pandas' default `min_periods` equals the window size, so any `NaN` in the
window also yields `NaN`). -/
def rollingMean (w : ℕ) (xs : List (Option ℚ)) : List (Option ℚ) :=
  (List.range xs.length).map (fun i =>
    if i + 1 < w then none
    else
      let win := (xs.drop (i + 1 - w)).take w
      if win.all Option.isSome then some ((win.map (fun o => o.getD 0)).sum / w)
      else none)

/-- `add_indicators` (src/app.py lines 92-96): coerce `Close` to numeric and
attach the 20- and 50-period rolling means of the coerced column. -/
def add_indicators (df : Frame) : FrameInd :=
  let c := df.Close.map to_numeric
  ⟨df.Date, df.Open, df.High, df.Low, c, df.Volume,
   rollingMean 20 c, rollingMean 50 c⟩

/-- The currency-symbol choice (src/app.py lines 138-142): substring tests
with `in`, `.SS`/`.SZ`/`.BJ` checked before `.HK`. -/
def currency_symbol (real_code : PyStr) : PyStr :=
  if pyContains real_code (pyS ".SS") || pyContains real_code (pyS ".SZ")
      || pyContains real_code (pyS ".BJ") then pyS "¥"
  else if pyContains real_code (pyS ".HK") then pyS "HK$"
  else pyS "$"

/-- The change metrics (src/app.py lines 130-135) on the coerced `Close`
column: current close `iloc[-1]`, previous close `iloc[-2]`, their
difference, and the percent change.  Defined for columns whose last two
cells are numeric (`getD 0` stands for the `NaN` case the claims never
reach). -/
def present_change (close : List (Option ℚ)) : ℚ × ℚ :=
  let curr := (close.getLastD none).getD 0
  let prev := (close.dropLast.getLastD none).getD 0
  (curr - prev, (curr - prev) / prev * 100)

/-- Spec-side statement of the normalizer (the spec's rule list, with the
digit test read as Python's `isdigit` and the branch tests on the leading
character): six digit characters get a suffix chosen by the leading
character `6`/`9` → `.SS`, `0`/`2`/`3` → `.SZ`, `4`/`8` → `.BJ`; anything
else is returned trimmed and uppercased, unchanged. -/
def normalizeSpec (s : PyStr) : PyStr :=
  let t := pyUpper (pyStrip s)
  if t.length = 6 ∧ t.all pyIsDigitChar = true then
    if t.headD 0 = pyC '6' ∨ t.headD 0 = pyC '9' then t ++ pyS ".SS"
    else if t.headD 0 = pyC '0' ∨ t.headD 0 = pyC '2' ∨ t.headD 0 = pyC '3' then
      t ++ pyS ".SZ"
    else if t.headD 0 = pyC '4' ∨ t.headD 0 = pyC '8' then t ++ pyS ".BJ"
    else t
  else t

/-- Spec-side suffix table: the suffix appended to a six-ASCII-digit symbol
as a function of its leading digit alone (empty for `1`, `5`, `7`, which the
code leaves unqualified). -/
def suffixForLeading (d : ℕ) : PyStr :=
  if d = pyC '6' ∨ d = pyC '9' then pyS ".SS"
  else if d = pyC '0' ∨ d = pyC '2' ∨ d = pyC '3' then pyS ".SZ"
  else if d = pyC '4' ∨ d = pyC '8' then pyS ".BJ"
  else []

/-- A concrete 50-row frame with constant numeric closes (and one
non-numeric variant below), used to instantiate the indicator theorems. -/
def frame50 : Frame :=
  ⟨List.replicate 50 0, List.replicate 50 1, List.replicate 50 1,
   List.replicate 50 1, (List.replicate 50 (1 : ℚ)).map PyCell.num,
   List.replicate 50 0⟩

/-- A concrete two-row frame whose first close cell is non-numeric. -/
def frameNonNum : Frame :=
  ⟨[0, 1], [1, 2], [1, 2], [1, 2], [PyCell.nonNum, PyCell.num 2], [3, 4]⟩

/-! Helper lemmas about the Python string model. -/

theorem pyUpperChar_idem (c : ℕ) : pyUpperChar (pyUpperChar c) = pyUpperChar c := by
  unfold pyUpperChar
  split_ifs <;> omega

theorem pyUpper_idem (s : PyStr) : pyUpper (pyUpper s) = pyUpper s := by
  unfold pyUpper
  rw [List.map_map]
  exact List.map_congr_left (fun c _ => pyUpperChar_idem c)

theorem pyIsSpace_pyUpperChar (c : ℕ) : pyIsSpace (pyUpperChar c) = pyIsSpace c := by
  unfold pyIsSpace pyUpperChar
  split_ifs with h
  · rw [decide_eq_decide]
    omega
  · rfl

theorem dropWhile_map_comm (f : α → β) (p : β → Bool) (l : List α) :
    (l.map f).dropWhile p = (l.dropWhile (fun a => p (f a))).map f := by
  induction l with
  | nil => rfl
  | cons a l ih =>
    simp only [List.map_cons, List.dropWhile_cons]
    split_ifs <;> simp_all

theorem pyStrip_pyUpper_comm (s : PyStr) :
    pyStrip (pyUpper s) = pyUpper (pyStrip s) := by
  unfold pyStrip pyUpper List.rdropWhile
  rw [dropWhile_map_comm, ← List.map_reverse, dropWhile_map_comm, ← List.map_reverse]
  simp only [pyIsSpace_pyUpperChar]

theorem pyStrip_idem (s : PyStr) : pyStrip (pyStrip s) = pyStrip s := by
  unfold pyStrip
  set u := s.dropWhile pyIsSpace with hu
  have hdrop : (u.rdropWhile pyIsSpace).dropWhile pyIsSpace = u.rdropWhile pyIsSpace := by
    rw [List.dropWhile_eq_self_iff]
    intro hl hp
    have hpre : u.rdropWhile pyIsSpace <+: u := List.rdropWhile_prefix _ _
    have hg : (u.rdropWhile pyIsSpace).get ⟨0, hl⟩ = u.get ⟨0, by
        exact lt_of_lt_of_le hl (hpre.sublist.length_le)⟩ := by
      simpa using hpre.getElem hl
    rw [hg] at hp
    have hself : u.dropWhile pyIsSpace = u := by
      rw [hu]; exact List.dropWhile_idempotent _ _
    rw [List.dropWhile_eq_self_iff] at hself
    exact hself _ hp
  rw [hdrop, List.rdropWhile_idempotent]

theorem pyStrip_eq_self (l : PyStr) (h : ∀ c ∈ l, pyIsSpace c = false) :
    pyStrip l = l := by
  unfold pyStrip
  have h1 : l.dropWhile pyIsSpace = l := by
    rw [List.dropWhile_eq_self_iff]
    intro hl hp
    rw [h _ (List.get_mem _ _ _)] at hp
    exact Bool.false_ne_true hp
  rw [h1, List.rdropWhile_eq_self_iff]
  intro hl hp
  rw [h _ (l.getLast_mem hl)] at hp
  exact Bool.false_ne_true hp

theorem stripUpper_invariant (s : PyStr) :
    pyUpper (pyStrip (pyUpper (pyStrip s))) = pyUpper (pyStrip s) := by
  rw [pyStrip_pyUpper_comm, pyStrip_idem, pyUpper_idem]

theorem stf_eq_core (s : PyStr) :
    smart_ticker_formatter s = smart_ticker_formatter (pyUpper (pyStrip s)) := by
  simp only [smart_ticker_formatter, stripUpper_invariant]

theorem stf_cases (s : PyStr) :
    smart_ticker_formatter s = pyUpper (pyStrip s) ∨
    (pyIsdigit (pyUpper (pyStrip s)) = true ∧ (pyUpper (pyStrip s)).length = 6 ∧
     ∃ sfx, (sfx = pyS ".SS" ∨ sfx = pyS ".SZ" ∨ sfx = pyS ".BJ") ∧
       smart_ticker_formatter s = pyUpper (pyStrip s) ++ sfx) := by
  simp only [smart_ticker_formatter]
  split_ifs with h1 h2 h3 h4
  · exact Or.inr ⟨h1.1, h1.2, pyS ".SS", Or.inl rfl, rfl⟩
  · exact Or.inr ⟨h1.1, h1.2, pyS ".SZ", Or.inr (Or.inl rfl), rfl⟩
  · exact Or.inr ⟨h1.1, h1.2, pyS ".BJ", Or.inr (Or.inr rfl), rfl⟩
  · exact Or.inl rfl
  · exact Or.inl rfl

theorem stf_suffixed (t sfx : PyStr) (ht : pyUpper t = t)
    (hd : t.all pyIsDigitChar = true)
    (hsfx : sfx = pyS ".SS" ∨ sfx = pyS ".SZ" ∨ sfx = pyS ".BJ")
    (hlen : t.length = 6) :
    smart_ticker_formatter (t ++ sfx) = t ++ sfx := by
  have hsfxns : ∀ c ∈ sfx, pyIsSpace c = false := by
    rcases hsfx with rfl | rfl | rfl <;> decide
  have hstrip : pyStrip (t ++ sfx) = t ++ sfx := by
    apply pyStrip_eq_self
    intro c hc
    rcases List.mem_append.mp hc with h | h
    · have hdc := List.all_eq_true.mp hd c h
      unfold pyIsDigitChar at hdc
      unfold pyIsSpace
      rw [decide_eq_true_eq] at hdc
      rw [decide_eq_false_iff_not]
      omega
    · exact hsfxns c h
  have hupper : pyUpper (t ++ sfx) = t ++ sfx := by
    have h2 : pyUpper sfx = sfx := by rcases hsfx with rfl | rfl | rfl <;> decide
    unfold pyUpper at ht h2 ⊢
    rw [List.map_append, ht, h2]
  have hsl : sfx.length = 3 := by rcases hsfx with rfl | rfl | rfl <;> decide
  simp only [smart_ticker_formatter]
  rw [hstrip, hupper, if_neg]
  rintro ⟨-, hl6⟩
  rw [List.length_append, hlen, hsl] at hl6
  omega

theorem pyContains_single_mem (s : PyStr) (c : ℕ)
    (h : pyContains s [c] = true) : c ∈ s := by
  unfold pyContains at h
  rw [List.any_eq_true] at h
  obtain ⟨i, _, hp⟩ := h
  rw [List.isPrefixOf_iff_prefix] at hp
  have hmem : c ∈ s.drop i := hp.subset (List.mem_singleton_self c)
  exact (List.drop_subset i s) hmem

/-- C7: the normalizer is a pure total function (it is a Lean function) and
idempotent: `smart_ticker_formatter (smart_ticker_formatter s) =
smart_ticker_formatter s` for every string; moreover an already
exchange-qualified ticker (one containing a `.`) is mapped to itself after
trimming and uppercasing. -/
theorem C7_normalize_idempotent (s : PyStr) :
    smart_ticker_formatter (smart_ticker_formatter s) = smart_ticker_formatter s ∧
    (pyContains (pyUpper (pyStrip s)) (pyS ".") = true →
      smart_ticker_formatter s = pyUpper (pyStrip s)) := by
  constructor
  · rcases stf_cases s with h | ⟨hdig, hlen, sfx, hsfx, h⟩
    · rw [h, ← stf_eq_core s]
      exact h
    · rw [h]
      apply stf_suffixed _ _ (pyUpper_idem _) _ hsfx hlen
      unfold pyIsdigit at hdig
      exact (Bool.and_eq_true _ _ |>.mp hdig).2
  · intro hc
    have hmem : pyC '.' ∈ pyUpper (pyStrip s) :=
      pyContains_single_mem _ _ hc
    have hall : (pyUpper (pyStrip s)).all pyIsDigitChar = false := by
      rw [Bool.eq_false_iff]
      intro hall
      exact absurd (List.all_eq_true.mp hall _ hmem) (by decide)
    have hdig : pyIsdigit (pyUpper (pyStrip s)) = false := by
      unfold pyIsdigit
      rw [hall, Bool.and_false]
    simp only [smart_ticker_formatter]
    rw [if_neg]
    rintro ⟨h1, -⟩
    rw [hdig] at h1
    exact Bool.false_ne_true h1

theorem pyStartswith_single (a c : ℕ) (l : List ℕ) :
    pyStartswith (a :: l) [c] = (c == a) := by
  simp [pyStartswith, List.isPrefixOf]

theorem pyIsdigit_cons_of_all (a : ℕ) (l : List ℕ)
    (h : (a :: l).all pyIsDigitChar = true) : pyIsdigit (a :: l) = true := by
  simp [pyIsdigit, h]

theorem stf_eq_normalizeSpec (s : PyStr) :
    smart_ticker_formatter s = normalizeSpec s := by
  simp only [smart_ticker_formatter, normalizeSpec]
  generalize pyUpper (pyStrip s) = t
  by_cases hc : t.length = 6 ∧ t.all pyIsDigitChar = true
  · obtain ⟨a, l, rfl⟩ : ∃ a l, t = a :: l := by
      cases t with
      | nil => simp at hc
      | cons a l => exact ⟨a, l, rfl⟩
    rw [if_pos ⟨pyIsdigit_cons_of_all a l hc.2, hc.1⟩, if_pos hc]
    have e1 : (pyStartswithAny (a :: l) [[pyC '6'], [pyC '9']] = true) ↔
        ((a :: l).headD 0 = pyC '6' ∨ (a :: l).headD 0 = pyC '9') := by
      simp [pyStartswithAny, pyStartswith_single, pyC]
      omega
    have e2 : (pyStartswithAny (a :: l) [[pyC '0'], [pyC '3'], [pyC '2']] = true) ↔
        ((a :: l).headD 0 = pyC '0' ∨ (a :: l).headD 0 = pyC '2' ∨
         (a :: l).headD 0 = pyC '3') := by
      simp [pyStartswithAny, pyStartswith_single, pyC]
      omega
    have e3 : (pyStartswithAny (a :: l) [[pyC '4'], [pyC '8']] = true) ↔
        ((a :: l).headD 0 = pyC '4' ∨ (a :: l).headD 0 = pyC '8') := by
      simp [pyStartswithAny, pyStartswith_single, pyC]
      omega
    by_cases h1 : (a :: l).headD 0 = pyC '6' ∨ (a :: l).headD 0 = pyC '9'
    · rw [if_pos (e1.mpr h1), if_pos h1]
    · rw [if_neg (fun hb => h1 (e1.mp hb)), if_neg h1]
      by_cases h2 : (a :: l).headD 0 = pyC '0' ∨ (a :: l).headD 0 = pyC '2' ∨
          (a :: l).headD 0 = pyC '3'
      · rw [if_pos (e2.mpr h2), if_pos h2]
      · rw [if_neg (fun hb => h2 (e2.mp hb)), if_neg h2]
        by_cases h3 : (a :: l).headD 0 = pyC '4' ∨ (a :: l).headD 0 = pyC '8'
        · rw [if_pos (e3.mpr h3), if_pos h3]
        · rw [if_neg (fun hb => h3 (e3.mp hb)), if_neg h3]
  · rw [if_neg hc]
    rw [if_neg]
    rintro ⟨hd, hl⟩
    unfold pyIsdigit at hd
    exact hc ⟨hl, (Bool.and_eq_true _ _ |>.mp hd).2⟩

/-- C1 amended: the normalizer trims and uppercases; the six-character test
uses Python's `isdigit` (which also accepts non-ASCII digit characters,
not only ASCII digits), and the suffix is chosen by the leading character:
`6`/`9` → `.SS`, `0`/`2`/`3` → `.SZ`, `4`/`8` → `.BJ`; every input whose
trimmed, uppercased form is not six digit characters (and every six-digit
form with leading `1`/`5`/`7`) is returned as the trimmed, uppercased
string unchanged. -/
theorem C1_normalizer_rules (s : PyStr) :
    smart_ticker_formatter s = normalizeSpec s :=
  stf_eq_normalizeSpec s

/-- C1 counterexample: the six-character input `6２２２２２` (ASCII `6`
followed by five fullwidth twos) is not six ASCII digits and is already
trimmed and uppercased, yet the normalizer does not return it unchanged: it
appends `.SS`, because Python's `isdigit` also accepts fullwidth digits. -/
theorem C1_counterexample :
    pyStrip (pyC '6' :: List.replicate 5 0xFF12) =
      (pyC '6' :: List.replicate 5 0xFF12) ∧
    pyUpper (pyC '6' :: List.replicate 5 0xFF12) =
      (pyC '6' :: List.replicate 5 0xFF12) ∧
    (pyC '6' :: List.replicate 5 0xFF12).all
      (fun c => decide (48 ≤ c ∧ c ≤ 57)) = false ∧
    smart_ticker_formatter (pyC '6' :: List.replicate 5 0xFF12) =
      (pyC '6' :: List.replicate 5 0xFF12) ++ pyS ".SS" ∧
    smart_ticker_formatter (pyC '6' :: List.replicate 5 0xFF12) ≠
      (pyC '6' :: List.replicate 5 0xFF12) := by
  decide

/-- C6 counterexample: `100000` is exactly six ASCII digits, but the
normalizer returns it unchanged, with none of the four exchange suffixes. -/
theorem C6_counterexample :
    (pyS "100000").all (fun c => decide (48 ≤ c ∧ c ≤ 57)) = true ∧
    (pyS "100000").length = 6 ∧
    smart_ticker_formatter (pyS "100000") = pyS "100000" ∧
    pyEndswith (smart_ticker_formatter (pyS "100000")) (pyS ".SS") = false ∧
    pyEndswith (smart_ticker_formatter (pyS "100000")) (pyS ".SZ") = false ∧
    pyEndswith (smart_ticker_formatter (pyS "100000")) (pyS ".BJ") = false ∧
    pyEndswith (smart_ticker_formatter (pyS "100000")) (pyS ".HK") = false := by
  decide

/-- C6 amended: for every string of exactly six ASCII digits, the
normalizer's output is the input with a suffix determined solely by the
leading digit: `6`/`9` → `.SS`, `0`/`2`/`3` → `.SZ`, `4`/`8` → `.BJ`, and
no suffix at all (output unchanged, hence none of the four known suffixes)
exactly when the leading digit is `1`, `5` or `7`; the suffix `.HK` is
never produced. -/
theorem C6_suffix_by_leading (s : PyStr)
    (hd : s.all (fun c => decide (48 ≤ c ∧ c ≤ 57)) = true)
    (hl : s.length = 6) :
    smart_ticker_formatter s = s ++ suffixForLeading (s.headD 0) ∧
    (suffixForLeading (s.headD 0) = [] ↔
      (s.headD 0 = pyC '1' ∨ s.headD 0 = pyC '5' ∨ s.headD 0 = pyC '7')) := by
  have hdigits : ∀ c ∈ s, 48 ≤ c ∧ c ≤ 57 := by
    intro c hc
    have := List.all_eq_true.mp hd c hc
    rwa [decide_eq_true_eq] at this
  have hstrip : pyStrip s = s := by
    apply pyStrip_eq_self
    intro c hc
    have := hdigits c hc
    unfold pyIsSpace
    rw [decide_eq_false_iff_not]
    omega
  have hupper : pyUpper s = s := by
    unfold pyUpper
    rw [List.map_congr_left (g := id), List.map_id]
    intro c hc
    have := hdigits c hc
    unfold pyUpperChar
    rw [if_neg]
    · rfl
    · omega
  have hall : s.all pyIsDigitChar = true := by
    rw [List.all_eq_true]
    intro c hc
    have := hdigits c hc
    unfold pyIsDigitChar
    rw [decide_eq_true_eq]
    omega
  obtain ⟨a, l, rfl⟩ : ∃ a l, s = a :: l := by
    cases s with
    | nil => simp at hl
    | cons a l => exact ⟨a, l, rfl⟩
  have ha : 48 ≤ a ∧ a ≤ 57 := hdigits a (List.mem_cons_self a l)
  constructor
  · rw [stf_eq_normalizeSpec]
    simp only [normalizeSpec]
    rw [hstrip, hupper, if_pos ⟨hl, hall⟩]
    unfold suffixForLeading
    split_ifs <;> simp
  · simp only [List.headD_cons]
    obtain ⟨ha1, ha2⟩ := ha
    interval_cases a <;> decide

/-- C6 witness: the amended theorem applied to the concrete input
`600519`. -/
theorem C6_witness :
    smart_ticker_formatter (pyS "600519") =
      pyS "600519" ++ suffixForLeading ((pyS "600519").headD 0) ∧
    (suffixForLeading ((pyS "600519").headD 0) = [] ↔
      ((pyS "600519").headD 0 = pyC '1' ∨ (pyS "600519").headD 0 = pyC '5' ∨
       (pyS "600519").headD 0 = pyC '7')) :=
  C6_suffix_by_leading (pyS "600519") (by decide) (by decide)

/-- C7 witness: idempotence and the already-qualified case at the concrete
input `0700.hk`. -/
theorem C7_witness :
    smart_ticker_formatter (smart_ticker_formatter (pyS "0700.hk")) =
      smart_ticker_formatter (pyS "0700.hk") ∧
    smart_ticker_formatter (pyS "0700.hk") = pyUpper (pyStrip (pyS "0700.hk")) :=
  ⟨(C7_normalize_idempotent (pyS "0700.hk")).1,
   (C7_normalize_idempotent (pyS "0700.hk")).2 (by decide)⟩

theorem date_range_length (start end_ : ℤ) :
    (date_range start end_).length = (end_ - start + 1).toNat := by
  unfold date_range
  rw [List.length_map, List.length_range]

theorem simulate_df_length (gauss : ℕ → ℕ → ℚ) (uraw : ℕ → ℕ → ℕ)
    (start end_ : ℤ) (st : NpRandomState) :
    (simulate_df gauss uraw start end_ st).length = (end_ - start + 1).toNat := by
  simp only [simulate_df]
  rw [List.length_map, List.length_range, date_range_length]

/-- C2 counterexample: with an end date strictly before the start date and a
failing remote fetch, the fallback date range is empty, so the loader
returns an empty series. -/
theorem C2_counterexample :
    (load_data_and_name (fun _ _ => 0) (fun _ _ => 0) FetchOutcome.err none
      (pyS "AAPL") 1 0 ⟨0, 0⟩).1 = [] := by
  rfl

/-- C2 amended: the loader is a total function (it never raises), and
whenever `start ≤ end` the series it returns is non-empty: a fetch
exception or an empty fetch result is replaced by the synthetic fallback
series, which covers at least one day. -/
theorem C2_loader_total_nonempty (gauss : ℕ → ℕ → ℚ) (uraw : ℕ → ℕ → ℕ)
    (fetch : FetchOutcome) (metaName : Option PyStr) (ticker : PyStr)
    (start end_ : ℤ) (st : NpRandomState) (h : start ≤ end_) :
    (load_data_and_name gauss uraw fetch metaName ticker start end_ st).1 ≠ [] := by
  have hsim : simulate_df gauss uraw start end_ st ≠ [] := by
    intro hnil
    have hlen := simulate_df_length gauss uraw start end_ st
    rw [hnil] at hlen
    simp only [List.length_nil] at hlen
    omega
  cases fetch with
  | err =>
      simp only [load_data_and_name]
      exact hsim
  | ok df =>
      simp only [load_data_and_name]
      split_ifs with hdf
      · exact hsim
      · exact hdf

/-- C2 witness: the amended theorem at a concrete one-day range with a
failing fetch. -/
theorem C2_witness :
    (load_data_and_name (fun _ _ => 0) (fun _ _ => 0) FetchOutcome.err none
      (pyS "NVDA") 0 0 ⟨0, 0⟩).1 ≠ [] :=
  C2_loader_total_nonempty _ _ _ _ _ _ _ _ (by decide)

/-- C3: the synthetic fallback is deterministic.  Whatever the ambient
`numpy.random` state was before the call (`st1` vs `st2`), the fallback
path reseeds with the fixed constant 42 and therefore produces bit-identical
series — both for the generation itself and for the whole loader on the
failing-fetch path.  This holds for every value stream of the generator. -/
theorem C3_fallback_deterministic (gauss : ℕ → ℕ → ℚ) (uraw : ℕ → ℕ → ℕ)
    (metaName : Option PyStr) (ticker : PyStr) (start end_ : ℤ)
    (st1 st2 : NpRandomState) :
    simulate_df gauss uraw start end_ st1 = simulate_df gauss uraw start end_ st2 ∧
    load_data_and_name gauss uraw FetchOutcome.err metaName ticker start end_ st1 =
      load_data_and_name gauss uraw FetchOutcome.err metaName ticker start end_ st2 :=
  ⟨rfl, rfl⟩

theorem rollingMean_entry (w : ℕ) (xs : List (Option ℚ)) (i : ℕ)
    (h : i < xs.length) :
    (rollingMean w xs)[i]? = some (
      if i + 1 < w then none
      else if ((xs.drop (i + 1 - w)).take w).all Option.isSome then
        some ((((xs.drop (i + 1 - w)).take w).map (fun o => o.getD 0)).sum / w)
      else none) := by
  unfold rollingMean
  rw [List.getElem?_map, List.getElem?_range h]
  rfl

theorem rollingMean_length (w : ℕ) (xs : List (Option ℚ)) :
    (rollingMean w xs).length = xs.length := by
  unfold rollingMean
  rw [List.length_map, List.length_range]

/-- C4: the two moving-average columns of `add_indicators` have the first
19 (respectively 49) entries undefined, and on a fully numeric close column
the entry at row 20 (respectively 50, 1-based; index 19/49) is the
arithmetic mean of the first 20 (respectively 50) close prices. -/
theorem C4_sma_windows (df : Frame) (closes : List ℚ)
    (hc : df.Close = closes.map PyCell.num) :
    (∀ i, i < 19 → ∀ v, (add_indicators df).SMA_20[i]? = some v → v = none) ∧
    (∀ i, i < 49 → ∀ v, (add_indicators df).SMA_50[i]? = some v → v = none) ∧
    (20 ≤ closes.length →
      (add_indicators df).SMA_20[19]? = some (some ((closes.take 20).sum / 20))) ∧
    (50 ≤ closes.length →
      (add_indicators df).SMA_50[49]? = some (some ((closes.take 50).sum / 50))) := by
  have hcc : df.Close.map to_numeric = closes.map some := by
    rw [hc, List.map_map]
    rfl
  have hlen : (df.Close.map to_numeric).length = closes.length := by
    rw [hcc, List.length_map]
  have hlead : ∀ w i, i + 1 < w → ∀ v,
      (rollingMean w (df.Close.map to_numeric))[i]? = some v → v = none := by
    intro w i hi v hv
    by_cases hil : i < (df.Close.map to_numeric).length
    · rw [rollingMean_entry w _ i hil, if_pos hi] at hv
      exact (Option.some_injective _ hv).symm
    · rw [List.getElem?_eq_none] at hv
      · exact absurd hv (Option.noConfusion)
      · rw [rollingMean_length]
        omega
  have hfull : ∀ w : ℕ, 0 < w → w ≤ closes.length →
      (rollingMean w (df.Close.map to_numeric))[w - 1]? =
        some (some ((closes.take w).sum / w)) := by
    intro w hw hwl
    have hil : w - 1 < (df.Close.map to_numeric).length := by omega
    rw [rollingMean_entry w _ (w - 1) hil, if_neg (by omega)]
    have hd0 : w - 1 + 1 - w = 0 := by omega
    rw [hd0, List.drop_zero, hcc, ← List.map_take, if_pos]
    · congr 2
      rw [List.map_map]
      have : (fun (o : Option ℚ) => o.getD 0) ∘ some = id := by
        funext q
        rfl
      rw [this, List.map_id]
    · rw [List.all_eq_true]
      intro o ho
      obtain ⟨q, -, rfl⟩ := List.mem_map.mp ho
      rfl
  refine ⟨fun i hi => hlead 20 i (by omega), fun i hi => hlead 50 i (by omega),
    fun h20 => ?_, fun h50 => ?_⟩
  · have := hfull 20 (by omega) h20
    simpa [add_indicators] using this
  · have := hfull 50 (by omega) h50
    simpa [add_indicators] using this

/-- C4 witness: the window theorem at a concrete 50-row frame of constant
closes. -/
theorem C4_witness :
    (∀ v, (add_indicators frame50).SMA_20[5]? = some v → v = none) ∧
    (add_indicators frame50).SMA_50[49]? =
      some (some (((List.replicate 50 (1 : ℚ)).take 50).sum / 50)) := by
  have h := C4_sma_windows frame50 (List.replicate 50 1) rfl
  exact ⟨h.1 5 (by omega), h.2.2.2 (by simp)⟩

/-- C10: `add_indicators` preserves the row count and leaves the `Date`,
`Open`, `High`, `Low` and `Volume` columns unchanged; the only columns it
writes are the coerced `Close` (non-numeric cells becoming missing) and the
two new moving-average columns, all of the original length. -/
theorem C10_frame_effect (df : Frame) :
    (add_indicators df).Date = df.Date ∧
    (add_indicators df).Open = df.Open ∧
    (add_indicators df).High = df.High ∧
    (add_indicators df).Low = df.Low ∧
    (add_indicators df).Volume = df.Volume ∧
    (add_indicators df).Close = df.Close.map to_numeric ∧
    (add_indicators df).Close.length = df.Close.length ∧
    (add_indicators df).SMA_20.length = df.Close.length ∧
    (add_indicators df).SMA_50.length = df.Close.length ∧
    (∀ i : ℕ, df.Close[i]? = some PyCell.nonNum →
      (add_indicators df).Close[i]? = some none) := by
  have hc : (add_indicators df).Close = df.Close.map to_numeric := rfl
  have h20 : (add_indicators df).SMA_20 = rollingMean 20 (df.Close.map to_numeric) := rfl
  have h50 : (add_indicators df).SMA_50 = rollingMean 50 (df.Close.map to_numeric) := rfl
  refine ⟨rfl, rfl, rfl, rfl, rfl, hc, ?_, ?_, ?_, ?_⟩
  · rw [hc, List.length_map]
  · rw [h20, rollingMean_length, List.length_map]
  · rw [h50, rollingMean_length, List.length_map]
  · intro i hi
    rw [hc, List.getElem?_map, hi]
    rfl

/-- C10 witness: the frame-effect theorem at a concrete frame containing a
non-numeric close cell. -/
theorem C10_witness :
    (add_indicators frameNonNum).Volume = frameNonNum.Volume ∧
    (add_indicators frameNonNum).Close[0]? = some none :=
  ⟨(C10_frame_effect frameNonNum).2.2.2.2.1,
   (C10_frame_effect frameNonNum).2.2.2.2.2.2.2.2.2 0 (by decide)⟩

theorem getD_map_range {α : Type} (n i : ℕ) (f : ℕ → α) (d : α) (h : i < n) :
    ((List.range n).map f).getD i d = f i := by
  have hb : i < ((List.range n).map f).length := by
    rw [List.length_map, List.length_range]
    exact h
  rw [List.getD_eq_getElem _ _ hb]
  simp [List.getElem_map, List.getElem_range]

theorem load_fallback_df (gauss : ℕ → ℕ → ℚ) (uraw : ℕ → ℕ → ℕ)
    (fetch : FetchOutcome) (metaName : Option PyStr) (ticker : PyStr)
    (start end_ : ℤ) (st : NpRandomState)
    (hfetch : fetch = FetchOutcome.err ∨ fetch = FetchOutcome.ok []) :
    (load_data_and_name gauss uraw fetch metaName ticker start end_ st).1 =
      simulate_df gauss uraw start end_ st ∧
    (load_data_and_name gauss uraw fetch metaName ticker start end_ st).2.1 =
      simulatedLabel := by
  rcases hfetch with rfl | rfl
  · exact ⟨rfl, rfl⟩
  · simp [load_data_and_name]

theorem simulate_df_entry (gauss : ℕ → ℕ → ℚ) (uraw : ℕ → ℕ → ℕ)
    (start end_ : ℤ) (st : NpRandomState) (i : ℕ)
    (h : i < (date_range start end_).length) :
    (simulate_df gauss uraw start end_ st)[i]? = some
      ⟨start + (i : ℤ),
       100 + ((List.range (i + 1)).map (fun j => gauss 42 j)).sum,
       100 + ((List.range (i + 1)).map (fun j => gauss 42 j)).sum + 1,
       100 + ((List.range (i + 1)).map (fun j => gauss 42 j)).sum - 1,
       100 + ((List.range (i + 1)).map (fun j => gauss 42 j)).sum,
       1000000 + (uraw 42 ((date_range start end_).length + i) : ℤ) % 4000000⟩ := by
  simp only [simulate_df, npSeed, npRandn, npRandint, npCumsum]
  rw [List.getElem?_map, List.getElem?_range h]
  have h1 : (date_range start end_).getD i 0 = start + (i : ℤ) := by
    have hlm : i < (List.range (end_ - start + 1).toNat).length := by
      unfold date_range at h
      rw [List.length_map] at h
      exact h
    unfold date_range
    rw [List.length_range] at hlm
    exact getD_map_range _ _ _ _ hlm
  have h2 : (((List.range ((List.range
        ((date_range start end_).length)).map
        (fun j => gauss 42 (0 + j))).length).map
        (fun k => ((((List.range ((date_range start end_).length)).map
          (fun j => gauss 42 (0 + j))).take (k + 1)).sum))).map
        (fun x => 100 + x)).getD i 0 =
      100 + ((List.range (i + 1)).map (fun j => gauss 42 j)).sum := by
    rw [List.map_map, List.length_map, List.length_range]
    rw [getD_map_range _ _ _ _ h]
    simp only [Function.comp]
    congr 1
    rw [← List.map_take, List.take_range]
    have hmin : min (i + 1) (date_range start end_).length = i + 1 := by omega
    rw [hmin]
    congr 1
    apply List.map_congr_left
    intro j _
    rw [Nat.zero_add]
  have h3 : ((List.range ((date_range start end_).length)).map
        (fun j => (1000000 : ℤ) +
          (uraw 42 (0 + (date_range start end_).length + j) : ℤ) %
            (5000000 - 1000000))).getD i 0 =
      1000000 + (uraw 42 ((date_range start end_).length + i) : ℤ) % 4000000 := by
    rw [getD_map_range _ _ _ _ h]
    norm_num
  simp only [Option.map_some']
  rw [h1, h2, h3]

/-- C5: when the fetch raises or returns an empty table and `start ≤ end`,
the loader returns the synthetic series with one row per day of
`[start, end]` (`end - start + 1` rows); row `i` has close
`100 + (sum of the first i+1 steps of the seed-42 stream)`, open equal to
the close, high one above, low one below, volume in the fixed range
`[1000000, 5000000)` drawn from the seed-42 stream, and the source label is
the simulation label, not `Yahoo Finance`. -/
theorem C5_fallback_series (gauss : ℕ → ℕ → ℚ) (uraw : ℕ → ℕ → ℕ)
    (fetch : FetchOutcome) (metaName : Option PyStr) (ticker : PyStr)
    (start end_ : ℤ) (st : NpRandomState)
    (hfetch : fetch = FetchOutcome.err ∨ fetch = FetchOutcome.ok [])
    (hse : start ≤ end_) :
    (((load_data_and_name gauss uraw fetch metaName ticker start end_ st).1.length : ℤ)
        = end_ - start + 1) ∧
    (load_data_and_name gauss uraw fetch metaName ticker start end_ st).2.1 =
      simulatedLabel ∧
    simulatedLabel ≠ yahooLabel ∧
    ∀ i : ℕ,
      i < (load_data_and_name gauss uraw fetch metaName ticker start end_ st).1.length →
      (load_data_and_name gauss uraw fetch metaName ticker start end_ st).1[i]? = some
        ⟨start + (i : ℤ),
         100 + ((List.range (i + 1)).map (fun j => gauss 42 j)).sum,
         100 + ((List.range (i + 1)).map (fun j => gauss 42 j)).sum + 1,
         100 + ((List.range (i + 1)).map (fun j => gauss 42 j)).sum - 1,
         100 + ((List.range (i + 1)).map (fun j => gauss 42 j)).sum,
         1000000 + (uraw 42 ((end_ - start + 1).toNat + i) : ℤ) % 4000000⟩ ∧
      1000000 ≤ 1000000 + (uraw 42 ((end_ - start + 1).toNat + i) : ℤ) % 4000000 ∧
      1000000 + (uraw 42 ((end_ - start + 1).toNat + i) : ℤ) % 4000000 < 5000000 := by
  obtain ⟨hdf, hlab⟩ := load_fallback_df gauss uraw fetch metaName ticker start end_ st hfetch
  rw [hdf, hlab]
  have hdr : (date_range start end_).length = (end_ - start + 1).toNat :=
    date_range_length start end_
  refine ⟨?_, rfl, by decide, ?_⟩
  · rw [simulate_df_length, Int.toNat_of_nonneg (by omega)]
  · intro i hi
    rw [simulate_df_length] at hi
    have hi2 : i < (date_range start end_).length := by omega
    refine ⟨?_, ?_, ?_⟩
    · rw [simulate_df_entry gauss uraw start end_ st i hi2, hdr]
    · have := Int.emod_nonneg (uraw 42 ((end_ - start + 1).toNat + i) : ℤ)
        (by norm_num : (4000000 : ℤ) ≠ 0)
      omega
    · have := Int.emod_lt_of_pos (uraw 42 ((end_ - start + 1).toNat + i) : ℤ)
        (by norm_num : (0 : ℤ) < 4000000)
      omega

/-- C5 witness: the fallback-series theorem at a concrete two-day range
with a failing fetch. -/
theorem C5_witness :
    (((load_data_and_name (fun _ _ => 1) (fun _ _ => 2) FetchOutcome.err none
      (pyS "MSFT") 0 1 ⟨0, 0⟩).1.length : ℤ) = 1 - 0 + 1) :=
  (C5_fallback_series (fun _ _ => 1) (fun _ _ => 2) FetchOutcome.err none
    (pyS "MSFT") 0 1 ⟨0, 0⟩ (Or.inl rfl) (by decide)).1

/-- C8: for any series whose (numeric) close column ends in `..., 20, 30`,
the presentation metrics computed after `add_indicators` report a change of
`+10` (current close minus previous close) and a percent change of `+50`
(change over previous close, times 100). -/
theorem C8_change_metrics (d : List ℤ) (o hi lo : List ℚ) (v : List ℤ)
    (p : List ℚ) :
    present_change (add_indicators
      (Frame.mk d o hi lo ((p ++ [20, 30]).map PyCell.num) v)).Close = (10, 50) := by
  have hc : (add_indicators
      (Frame.mk d o hi lo ((p ++ [20, 30]).map PyCell.num) v)).Close
      = p.map some ++ [some 20, some 30] := by
    show ((p ++ [20, 30]).map PyCell.num).map to_numeric = _
    rw [List.map_map, List.map_append]
    rfl
  rw [hc]
  simp only [present_change]
  have hsplit : p.map some ++ [some (20 : ℚ), some 30]
      = (p.map some ++ [some 20]) ++ [some 30] := by
    rw [List.append_assoc]
    rfl
  rw [hsplit, List.getLastD_concat, List.dropLast_concat, List.getLastD_concat]
  norm_num

/-- C9 counterexample: the resolved ticker `A.SS.HK` (reachable, since the
normalizer returns `a.ss.hk` uppercased unchanged) has suffix `.HK`, yet
the displayed currency is `¥`, not `HK$`: the code tests substring
containment, and `.SS` occurs first. -/
theorem C9_counterexample :
    smart_ticker_formatter (pyS "a.ss.hk") = pyS "A.SS.HK" ∧
    pyEndswith (pyS "A.SS.HK") (pyS ".HK") = true ∧
    currency_symbol (pyS "A.SS.HK") = pyS "¥" ∧
    currency_symbol (pyS "A.SS.HK") ≠ pyS "HK$" := by
  decide

/-- C9 amended: the currency symbol is chosen by substring containment, in
priority order: a ticker containing `.SS`, `.SZ` or `.BJ` anywhere yields
`¥`; otherwise one containing `.HK` yields `HK$`; otherwise `$`.  (For
tickers whose only dot-suffix occurrence is a true suffix this agrees with
suffix inspection.) -/
theorem C9_currency_by_containment (code : PyStr) :
    ((pyContains code (pyS ".SS") = true ∨ pyContains code (pyS ".SZ") = true ∨
      pyContains code (pyS ".BJ") = true) →
      currency_symbol code = pyS "¥") ∧
    (¬(pyContains code (pyS ".SS") = true ∨ pyContains code (pyS ".SZ") = true ∨
       pyContains code (pyS ".BJ") = true) →
      pyContains code (pyS ".HK") = true → currency_symbol code = pyS "HK$") ∧
    (¬(pyContains code (pyS ".SS") = true ∨ pyContains code (pyS ".SZ") = true ∨
       pyContains code (pyS ".BJ") = true) →
      pyContains code (pyS ".HK") = false → currency_symbol code = pyS "$") := by
  refine ⟨?_, ?_, ?_⟩
  · intro h
    unfold currency_symbol
    rw [if_pos (by rw [Bool.or_eq_true, Bool.or_eq_true]; tauto)]
  · intro hno hhk
    unfold currency_symbol
    rw [if_neg (by rw [Bool.or_eq_true, Bool.or_eq_true]; tauto), if_pos hhk]
  · intro hno hhk
    unfold currency_symbol
    rw [if_neg (by rw [Bool.or_eq_true, Bool.or_eq_true]; tauto),
      if_neg (by simp [hhk])]

/-- C9 witness: the three containment cases at concrete resolved tickers. -/
theorem C9_witness :
    currency_symbol (pyS "600519.SS") = pyS "¥" ∧
    currency_symbol (pyS "0700.HK") = pyS "HK$" ∧
    currency_symbol (pyS "NVDA") = pyS "$" :=
  ⟨(C9_currency_by_containment (pyS "600519.SS")).1 (by decide),
   (C9_currency_by_containment (pyS "0700.HK")).2.1 (by decide) (by decide),
   (C9_currency_by_containment (pyS "NVDA")).2.2 (by decide) (by decide)⟩
